import Mathlib

/-!
Verification development for the Meyer Sound Galaxy control module
(companion-module-meyersound-galaxy).

The definitions below are a shallow embedding of the action callbacks in
`actions/outputs.js`, `actions/inputs.js` and `actions/matrix.js`:

* JavaScript numbers are modelled as `ℚ` where the computation is rational
  (delay conversion, gain arithmetic, clamping) and as `ℝ` where the source
  uses `Math.log` (the HF-attenuation curve); `Math.round x` is `⌊x + 1/2⌋`,
  which is Mathlib's `round`.
* The nested dynamic maps hanging off the module instance
  (`self.outputUShaping`, `self._rotaryAccel`, ...) become total functions
  with `Option` values (a missing key is `none`).
* Device Link writes (`self._cmdSendLine(...)`) are modelled as values of a
  command datatype; the textual formatting of a command line is presentation
  and carries no logic.
* Log calls (`self.log?.(level, msg)`) are collected in a list; dynamic
  message suffixes (channel lists, values) are dropped, the static prefix and
  the level are kept.
-/

namespace Galaxy

/-- Log levels used by the module's `self.log?.(level, message)` calls. -/
inductive LogLevel
  | warn
  | info
  | debug
deriving DecidableEq, Repr

/-- One log call: level and the static message text. -/
abbrev LogEntry := LogLevel × String

/-- Clamp helper from the delay callbacks:
`const clamp = (v, lo, hi) => Math.max(lo, Math.min(hi, v))`. -/
def clampQ (v lo hi : ℚ) : ℚ := max lo (min hi v)

/-- Modelled from the spec: `safeGetChannels` lives in `actions-helpers.js`,
which is not among the sources here.  Per the spec (Channel Set Validator) it
turns a raw channel selection into a deduplicated, range-checked ordered
sequence of integers in `[1, max]`, dropping out-of-range tokens silently;
non-numeric tokens are modelled as out-of-range values.  First occurrences are
kept, in order. -/
def dedupFirstAux (seen : List ℕ) : List ℕ → List ℕ
  | [] => []
  | a :: l => if a ∈ seen then dedupFirstAux seen l else a :: dedupFirstAux (a :: seen) l

/-- Deduplication keeping the first occurrence of each element. -/
def dedupFirst (l : List ℕ) : List ℕ := dedupFirstAux [] l

/-- Modelled from the spec: see `dedupFirstAux` above. -/
def safeGetChannels (raw : List ℤ) (maxCh : ℕ) : List ℕ :=
  dedupFirst (((raw.filter fun t => decide (1 ≤ t) && decide (t ≤ (maxCh : ℤ))).map
    Int.toNat))

/-- Delay unit selector of the delay actions (option `type`); the source uses
string ids `'unchanged'`, `'0'` .. `'6'`. -/
inductive DelayUnit
  | unchanged
  | ms
  | feet
  | meters
  | frames24
  | frames25
  | frames30
  | samples96
deriving DecidableEq, Repr

/-- Numeric code of a delay unit, as written into `delay_type='...'` commands
(`Number(typeId)`); `unchanged` never reaches this conversion. -/
def DelayUnit.code : DelayUnit → ℤ
  | .unchanged => 0
  | .ms => 0
  | .feet => 1
  | .meters => 2
  | .frames24 => 3
  | .frames25 => 4
  | .frames30 => 5
  | .samples96 => 6

/-- Translation of `valueToMs` (identical local function in
`input_delay_set`, `output_delay_set` and `matrix_delay_full`):
speed of sound 1125 ft/s and 343 m/s, frame rates 24/25/30 fps, 96 samples
per ms.  A non-finite input returns 0 in the source; `ℚ` values are always
finite, so that branch is invisible here. -/
def valueToMs (val : ℚ) (u : DelayUnit) : ℚ :=
  match u with
  | .feet => val * 1000 / 1125
  | .meters => val * 1000 / 343
  | .frames24 => val / 24 * 1000
  | .frames25 => val / 25 * 1000
  | .frames30 => val / 30 * 1000
  | .samples96 => val / 96
  | _ => val

/-- Translation of `roundTo01 = (v) => Math.round(v / 0.01) * 0.01`, with the
exact rational 1/100 for the double literal `0.01`. -/
def roundTo01 (v : ℚ) : ℚ := (round (v / (1 / 100)) : ℤ) * (1 / 100)

/-- The delay value pipeline shared by the three delay callbacks:
`roundTo01(clamp(valueToMs(value, type), lo, hi))`, where `[lo, hi]` is
`[0, 500]` for input and matrix delay and `[0, 2000]` for output delay. -/
def delayTargetMs (lo hi : ℚ) (u : DelayUnit) (value : ℚ) : ℚ :=
  roundTo01 (clampQ (valueToMs value u) lo hi)

/-- Sample count transmitted for a delay target:
`Math.round(targetMs * 96)`. -/
def delaySamples (lo hi : ℚ) (u : DelayUnit) (value : ℚ) : ℤ :=
  round (delayTargetMs lo hi u value * 96)

/-- Device Link command lines sent by the rational-valued callbacks embedded
here, one constructor per command path shape. -/
inductive Cmd
  | outputDelay (ch : ℕ) (samples : ℤ)
  | inputDelay (ch : ℕ) (samples : ℤ)
  | matrixDelayType (inp out : ℕ) (code : ℤ)
  | matrixDelay (inp out : ℕ) (samples : ℤ)
  | matrixDelayBypass (inp out : ℕ) (state : Bool)
  | inputEqBypass (ch : ℕ) (state : Bool)
deriving DecidableEq, Repr

/-- Stored output delay state; `_applyOutputDelay(ch, samples)` (module core,
outside the sources here) is modelled from the spec as mirroring the
transmitted sample count per channel. -/
structure OutputDelayState where
  delay : ℕ → Option ℤ

/-- Translation of the `output_delay_set` callback (`actions/outputs.js`).
The source prefers a `self._setOutputDelayMs` helper when the module defines
one; that helper is outside the sources here, so the in-source fallback branch
(send `/processing/output/ch/delay=samples`, then `_applyOutputDelay`) is the
embedded behaviour. -/
def outputDelaySet (numOutputs : ℕ) (rawChs : List ℤ) (u : DelayUnit) (value : ℚ)
    (st : OutputDelayState) : OutputDelayState × List Cmd × List LogEntry :=
  let chs := safeGetChannels rawChs numOutputs
  if chs = [] then (st, [], [(.warn, "No valid output channels selected")])
  else
    let p := chs.foldl (fun acc ch =>
      if u = .unchanged then acc
      else
        let targetMs := delayTargetMs 0 2000 u value
        let samples := round (targetMs * 96)
        ({ delay := fun c => if c = ch then some samples else acc.1.delay c },
          acc.2 ++ [Cmd.outputDelay ch samples])) (st, ([] : List Cmd))
    (p.1, p.2, [])

/-- Stored input delay state; `_applyInputDelay(ch, samples)` (module core,
outside the sources here) is modelled from the spec as mirroring the
transmitted sample count per channel. -/
structure InputDelayState where
  delay : ℕ → Option ℤ

/-- Translation of the `input_delay_set` callback (`actions/inputs.js`), same
shape as `outputDelaySet` but with clamp range `[0, 500]`. -/
def inputDelaySet (numInputs : ℕ) (rawChs : List ℤ) (u : DelayUnit) (value : ℚ)
    (st : InputDelayState) : InputDelayState × List Cmd × List LogEntry :=
  let chs := safeGetChannels rawChs numInputs
  if chs = [] then (st, [], [(.warn, "No valid input channels selected")])
  else
    let p := chs.foldl (fun acc ch =>
      if u = .unchanged then acc
      else
        let targetMs := delayTargetMs 0 500 u value
        let samples := round (targetMs * 96)
        ({ delay := fun c => if c = ch then some samples else acc.1.delay c },
          acc.2 ++ [Cmd.inputDelay ch samples])) (st, ([] : List Cmd))
    (p.1, p.2, [])

/-- Mode of the `delay_status` option of `matrix_delay_full`. -/
inductive DelayStatusMode
  | unchanged
  | on
  | off
  | toggle
deriving DecidableEq, Repr

/-- Stored per-crosspoint matrix delay state (`self.matrixDelay[key]`, keyed
by the (input, output) pair); the `_applyMatrixDelay*` mirrors are module core
outside the sources here and are modelled from the spec as plain stores. -/
structure MatrixDelayEntry where
  samples : Option ℤ
  dtype : Option ℤ
  bypass : Option Bool
deriving DecidableEq, Repr

/-- Matrix delay store, addressed by (input, output). -/
structure MatrixDelayState where
  matrixDelay : ℕ → ℕ → MatrixDelayEntry

/-- Loop body of the `matrix_delay_full` callback for one (input, output)
pair: optionally write the delay type, the converted delay value, and the
bypass state; the three blocks are independent, each guarded by its own
`unchanged` sentinel. -/
def matrixDelayPairStep (u : DelayUnit) (value : ℚ) (statusMode : DelayStatusMode)
    (i o : ℕ) (acc : MatrixDelayState × List Cmd) : MatrixDelayState × List Cmd :=
  let st0 := acc.1
  let cmds0 := acc.2
  -- Delay type
  let step1 : MatrixDelayState × List Cmd :=
    if u ≠ .unchanged then
      ({ matrixDelay := fun a b =>
          if a = i ∧ b = o then { st0.matrixDelay a b with dtype := some u.code }
          else st0.matrixDelay a b },
        cmds0 ++ [Cmd.matrixDelayType i o u.code])
    else (st0, cmds0)
  -- Delay value (converted from the selected unit), only when a unit is chosen
  let step2 : MatrixDelayState × List Cmd :=
    if u ≠ .unchanged then
      let targetMs := delayTargetMs 0 500 u value
      let samples := round (targetMs * 96)
      ({ matrixDelay := fun a b =>
          if a = i ∧ b = o then { (step1.1).matrixDelay a b with samples := some samples }
          else (step1.1).matrixDelay a b },
        step1.2 ++ [Cmd.matrixDelay i o samples])
    else step1
  -- Bypass
  if statusMode ≠ .unchanged then
    let newState :=
      if statusMode = .toggle then !((((step2.1).matrixDelay i o).bypass).getD false)
      else decide (statusMode = .off)
    ({ matrixDelay := fun a b =>
        if a = i ∧ b = o then { (step2.1).matrixDelay a b with bypass := some newState }
        else (step2.1).matrixDelay a b },
      step2.2 ++ [Cmd.matrixDelayBypass i o newState])
  else step2

/-- Translation of the `matrix_delay_full` callback (`actions/matrix.js`):
run `matrixDelayPairStep` over every selected (input, output) pair. -/
def matrixDelayFull (numOutputs : ℕ) (rawIns rawOuts : List ℤ) (u : DelayUnit)
    (value : ℚ) (statusMode : DelayStatusMode) (st : MatrixDelayState) :
    MatrixDelayState × List Cmd × List LogEntry :=
  let inputs := safeGetChannels rawIns 32
  let outs := safeGetChannels rawOuts numOutputs
  if inputs = [] ∨ outs = [] then
    (st, [], [(.warn, "No valid matrix channels selected")])
  else
    let p := inputs.foldl (fun acc1 i =>
      outs.foldl (fun acc o => matrixDelayPairStep u value statusMode i o acc) acc1)
      (st, ([] : List Cmd))
    (p.1, p.2, [])

/-- Specification predicate for C7: `res` extends `acc` by touching only the
bypass field of the matrix delay store and appending only bypass commands
(delay values and delay types are untouched). -/
def BypassOnlyExt (acc res : MatrixDelayState × List Cmd) : Prop :=
  (∀ a b, (res.1.matrixDelay a b).samples = (acc.1.matrixDelay a b).samples
    ∧ (res.1.matrixDelay a b).dtype = (acc.1.matrixDelay a b).dtype)
  ∧ ∃ tail, res.2 = acc.2 ++ tail
    ∧ ∀ c ∈ tail, ∃ i o s, c = Cmd.matrixDelayBypass i o s

/-- Operation selector shared by the mute and solo actions
(`'on'`, `'off'`, `'toggle'`). -/
inductive SwitchOp
  | on
  | off
  | toggle
deriving DecidableEq, Repr

/-- The solo snapshot stored in `self.outputSoloState` / `self.inputSoloState`:
the active solo set plus the pre-solo mute snapshot object (keys `1..N`, hence
an `Option Bool` valued function; a key outside the snapshot reads as `none`,
matching `prevMute[ch] ?? false` via `getD false`). -/
structure SoloSnapshot where
  soloChannels : List ℕ
  prevMute : ℕ → Option Bool

/-- Per-domain mute/solo state: `self.outMute` (or `self.inMute`), where a
missing key coerces to `false` (`!!self?.outMute?.[ch]`), and the solo
snapshot (`null` when unsoloed). -/
structure MuteState where
  mute : ℕ → Bool
  soloState : Option SoloSnapshot

/-- Translation of the same-solo check in `output_solo` / `input_solo`:
`currentSoloState.soloChannels.size === soloSet.size &&
[...soloSet].every((ch) => currentSoloState.soloChannels.has(ch))`;
both lists are deduplicated, so lengths play the role of set sizes. -/
def isSameSolo (cur : SoloSnapshot) (soloSet : List ℕ) : Bool :=
  cur.soloChannels.length == soloSet.length && soloSet.all (fun ch => cur.soloChannels.contains ch)

/-- Translation of the `output_solo` callback (`actions/outputs.js`); the
`input_solo` callback in `actions/inputs.js` is identical up to domain.
`_setMute(domain, ch, b)` is module core outside the sources here and is
modelled from the spec as writing the per-channel mute flag; the loops over
`ch = 1..N` become the pointwise function update on that range. -/
def soloAction (numCh : ℕ) (op : SwitchOp) (rawChs : List ℤ) (st : MuteState) :
    MuteState × List LogEntry :=
  let soloChannels := safeGetChannels rawChs numCh
  if soloChannels = [] then (st, [(.warn, "No valid output channels selected for solo")])
  else
    let isSame := match st.soloState with
      | some cur => isSameSolo cur soloChannels
      | none => false
    let shouldApplySolo := match op with
      | .on => true
      | .off => false
      | .toggle => !isSame
    if shouldApplySolo then
      -- Apply solo: unmute selected, mute others; reuse the previous snapshot if present
      let prevMute : ℕ → Option Bool := match st.soloState with
        | some cur => cur.prevMute
        | none => fun ch => if 1 ≤ ch ∧ ch ≤ numCh then some (st.mute ch) else none
      ({ mute := fun ch =>
            if 1 ≤ ch ∧ ch ≤ numCh then
              (if ch ∈ soloChannels then false else true)
            else st.mute ch,
         soloState := some ⟨soloChannels, prevMute⟩ },
       [(.info, "Soloed channels")])
    else
      -- Unsolo: restore previous mute states if known
      let prevMute : ℕ → Option Bool := match st.soloState with
        | some cur => cur.prevMute
        | none => fun _ => none
      ({ mute := fun ch =>
            if 1 ≤ ch ∧ ch ≤ numCh then (prevMute ch).getD false else st.mute ch,
         soloState := none },
       [(.info, "Unsolo - restored previous mute states")])

/-- Translation of the `input_mute_control` callback (`actions/inputs.js`);
`output_mute_control` is identical up to domain.  `_setMute` / `_toggleMute`
are module core outside the sources here, modelled from the spec as writing or
flipping the per-channel mute flag. -/
def muteControl (numCh : ℕ) (op : SwitchOp) (rawChs : List ℤ) (st : MuteState) :
    MuteState × List LogEntry :=
  let chs := safeGetChannels rawChs numCh
  if chs = [] then (st, [(.warn, "No valid input channels selected")])
  else
    (chs.foldl (fun acc ch =>
      { acc with mute := fun c =>
          if c = ch then
            match op with
            | .on => true
            | .off => false
            | .toggle => !(acc.mute ch)
          else acc.mute c }) st, [])

/-- Rotary acceleration state per `(surface, parameter)` key, one entry of
`self._rotaryAccel`; the default for a missing key is `{ time: 0, count: 0 }`. -/
structure AccelState where
  time : ℤ
  count : ℕ
deriving DecidableEq, Repr

/-- One rotation event of the shared acceleration block (identically repeated
in `input_ushaping_knob_gain`, `output_ushaping_knob_slope`,
`output_ushaping_knob_frequency`, the EQ knob actions, ...):
`timeDiff = now - last.time; speedTier = timeDiff < 100 ?
Math.min(last.count + 1, maxTier) : 0;` then store `{ time: now, count: speedTier }`.
The knob actions all use `maxTier = 3` (four tiers `0..3`). -/
def accelStep (maxTier : ℕ) (st : AccelState) (now : ℤ) : AccelState :=
  if now - st.time < 100 then { time := now, count := min (st.count + 1) maxTier }
  else { time := now, count := 0 }

/-- State reached by a sequence of rotation events from the missing-key
default `{ time: 0, count: 0 }`. -/
def accelRun (maxTier : ℕ) (events : List ℤ) : AccelState :=
  events.foldl (accelStep maxTier) { time := 0, count := 0 }

/-- Fade curve selector: `e.options.curve === 'log' ? 'log' : 'linear'`. -/
inductive Curve
  | linear
  | log
deriving DecidableEq, Repr

/-- Target mode of the gain actions (option `target`); `'last'` and `'prev'`
both map to `last`, anything unrecognised maps to `value`. -/
inductive GainMode
  | last
  | pair
  | nudge
  | value
deriving DecidableEq, Repr

/-- The two slots of the gain pair toggle (`self._outputGainToggle[ch]`,
holding the string `'A'` or `'B'`; a missing key compares unequal to `'A'`). -/
inductive ABTag
  | A
  | B
deriving DecidableEq, Repr

/-- Calls made by the gain callbacks into the module core.  `_subWrite`,
`_beginPrevCaptureWindow`, `_rememberPrevOutputGain`, `_setOutputGain` and
`_startOutputGainFade` are module core outside the sources here; the callback
is verified by the sequence of calls it issues, so they are recorded as
events (arguments as passed). -/
inductive GainEff
  | subWrite (ch : ℕ)
  | beginCapture (ch : ℕ) (windowMs : ℕ)
  | rememberPrev (ch : ℕ)
  | setGain (ch : ℕ) (v : ℚ)
  | startFade (ch : ℕ) (target : ℚ) (durMs : ℚ) (curve : Curve)
deriving DecidableEq, Repr

/-- Mutable state read or written by the `output_gain_set` callback:
the mirrored gain (`self.outputGain`), the pair toggle
(`self._outputGainToggle`), and `recallPrev` for `_getPrevOutputGain`
(Recall Memory, modelled from the spec: it returns the remembered previous
value for the channel or `null`). -/
structure GainState where
  outputGain : ℕ → Option ℚ
  gainToggle : ℕ → Option ABTag
  recallPrev : ℕ → Option ℚ

/-- Modelled from the spec: `_setOutputGain` (module core, not in the sources
here) writes the gain into the Parameter Store — clamped to the action's gain
bounds `[-90, 10]` per the spec's clamp-before-store invariant — and
transmits it. -/
def setOutputGainModel (ch : ℕ) (v : ℚ) (st : GainState) : GainState :=
  { st with outputGain := fun c => if c = ch then some (clampQ v (-90) 10) else st.outputGain c }

/-- Translation of the `output_gain_set` callback (`actions/outputs.js`);
`input_gain_set` in `actions/inputs.js` is identical up to domain.  Returns
the new state, the core calls issued in order, and the log entries. -/
def outputGainSet (numOutputs : ℕ) (rawChs : List ℤ) (mode : GainMode)
    (gain gainA gainB delta fadeMs : ℚ) (curve : Curve) (st : GainState) :
    GainState × List GainEff × List LogEntry :=
  let chs := safeGetChannels rawChs numOutputs
  if chs = [] then (st, [], [(.warn, "No valid output channels selected")])
  else
    let dur := max 0 fadeMs
    match mode with
    | .last =>
      let p := chs.foldl (fun acc ch =>
        match acc.1.recallPrev ch with
        | none => (acc.1, acc.2.1, acc.2.2 ++ [((.debug : LogLevel), "no last dB stored")])
        | some prev =>
          if 0 < dur then
            (acc.1, acc.2.1 ++ [GainEff.startFade ch prev dur curve], acc.2.2)
          else
            (setOutputGainModel ch prev acc.1, acc.2.1 ++ [GainEff.setGain ch prev], acc.2.2))
        (st, ([] : List GainEff), ([] : List LogEntry))
      p
    | .nudge =>
      let p := chs.foldl (fun acc ch =>
        let base := (acc.1.outputGain ch).getD 0
        let target := base + delta
        (setOutputGainModel ch target acc.1,
          acc.2 ++ [GainEff.subWrite ch, GainEff.beginCapture ch 300, GainEff.rememberPrev ch,
            GainEff.setGain ch target]))
        (st, ([] : List GainEff))
      (p.1, p.2, [])
    | .pair =>
      let p := chs.foldl (fun acc ch =>
        let lastWasA := acc.1.gainToggle ch = some ABTag.A
        let targetGain := if lastWasA then gainB else gainA
        let newTag := if lastWasA then ABTag.B else ABTag.A
        let st1 := { acc.1 with gainToggle := fun c =>
          (if c = ch then some newTag else acc.1.gainToggle c) }
        let pre := acc.2 ++ [GainEff.subWrite ch, GainEff.beginCapture ch 300,
          GainEff.rememberPrev ch]
        if 0 < dur then
          (st1, pre ++ [GainEff.startFade ch targetGain dur curve])
        else
          (setOutputGainModel ch targetGain st1, pre ++ [GainEff.setGain ch targetGain]))
        (st, ([] : List GainEff))
      (p.1, p.2, [])
    | .value =>
      let p := chs.foldl (fun acc ch =>
        let pre := acc.2 ++ [GainEff.subWrite ch, GainEff.beginCapture ch 300,
          GainEff.rememberPrev ch]
        if 0 < dur then
          (acc.1, pre ++ [GainEff.startFade ch gain dur curve])
        else
          (setOutputGainModel ch gain acc.1, pre ++ [GainEff.setGain ch gain]))
        (st, ([] : List GainEff))
      (p.1, p.2, [])

/-- Mode of the EQ bypass actions (`'set'` or `'toggle'`). -/
inductive EqMode
  | set
  | toggle
deriving DecidableEq, Repr

/-- Master parametric EQ bypass flags (`self.inputEQ[ch].bypass`); a missing
key reads as undefined, i.e. `none`. -/
structure InputEqState where
  bypass : ℕ → Option Bool

/-- Translation of the `input_eq_bypass` callback (`actions/inputs.js`).
Note: unlike the other multi-channel callbacks, this one has no
empty-selection guard in the source — an empty selection silently runs an
empty loop, with no log entry at any level. -/
def inputEqBypass (numInputs : ℕ) (rawChs : List ℤ) (mode : EqMode) (stateOpt : Bool)
    (st : InputEqState) : InputEqState × List Cmd × List LogEntry :=
  let chs := safeGetChannels rawChs numInputs
  chs.foldl (fun acc ch =>
    let state := match mode with
      | .toggle => !((acc.1.bypass ch).getD false)
      | .set => stateOpt
    ({ bypass := fun c => if c = ch then some state else acc.1.bypass c },
      acc.2.1 ++ [Cmd.inputEqBypass ch state],
      acc.2.2 ++ [((.info : LogLevel), "Parametric EQ bypass")]))
    (st, [], [])

/-- Parameter selector of the `input_ushaping` action. -/
inductive UParam
  | gain
  | frequency
  | slope
deriving DecidableEq, Repr

/-- Mode selector of the `input_ushaping` action. -/
inductive UMode
  | set
  | adjust
deriving DecidableEq, Repr

/-- Per-channel final value computed by the `input_ushaping` callback
(`actions/inputs.js`, set/adjust): the current stored value (with the
parameter's default when absent) plus the delta, or the absolute option
value, clamped with `Math.max(lo, Math.min(hi, ·))` to the subsystem bounds —
gain `[-18, 18]` dB, frequency `[10, 20000]` Hz, slope `[0.1, 2]`. -/
def inputUShapingFinalValue (mode : UMode) (param : UParam)
    (current : Option ℚ) (deltaOpt valueOpt : Option ℚ) : ℚ :=
  match mode, param with
  | .adjust, .gain => max (-18) (min 18 (current.getD 0 + deltaOpt.getD 0))
  | .adjust, .frequency => max 10 (min 20000 (current.getD 1000 + deltaOpt.getD 0))
  | .adjust, .slope => max (1 / 10) (min 2 (current.getD 1 + deltaOpt.getD 0))
  | .set, .gain => max (-18) (min 18 (valueOpt.getD 0))
  | .set, .frequency => max 10 (min 20000 (valueOpt.getD 1000))
  | .set, .slope => max (1 / 10) (min 2 (valueOpt.getD 1))

/-- Per-channel value stored by `output_ushaping_knob_gain`
(`actions/outputs.js`): `finalValue = Math.max(-15, Math.min(15, current + delta))`,
with stored default 0; the same clamp appears in `input_ushaping_knob_gain`. -/
def outputUShapingKnobGainFinal (current : Option ℚ) (delta : ℚ) : ℚ :=
  max (-15) (min 15 (current.getD 0 + delta))

/-- Ceiling of `total / 2` for a natural `total`, i.e. `Math.ceil(total / 2)`. -/
def ceilHalf (total : ℕ) : ℕ := (total + 1) / 2

/-- One stored U-Shaping band (`self.outputUShaping[ch][band]`); fields that
were never written read as undefined, i.e. `none`. -/
structure UBand where
  frequency : Option ℝ
  slope : Option ℝ
  gain : Option ℝ

/-- The output U-Shaping store, channel → band → parameters. -/
structure UShapingState where
  ushaping : ℕ → ℕ → UBand

/-- Device Link command lines sent by `output_hf_attenuation`
(`/processing/output/ch/ushaping/band/...=v`). -/
inductive HFCmd
  | frequency (ch band : ℕ) (v : ℝ)
  | slope (ch band : ℕ) (v : ℝ)
  | gain (ch band : ℕ) (v : ℝ)

/-- Result of one `output_hf_attenuation` invocation. -/
structure HFResult where
  st : UShapingState
  cmds : List HFCmd
  logs : List LogEntry

/-- Band-4 crossover frequency fixed by the HF attenuation action
(`const band4Frequency = 8000`). -/
def band4Frequency : ℝ := 8000

/-- Band-4 slope fixed by the HF attenuation action
(`const band4Slope = 1`, 6 dB/oct). -/
def band4Slope : ℝ := 1

/-- Translation of `roundTenth = (v) => { const r = Math.round(v * 10) / 10;
return Object.is(r, -0) ? 0 : r }`; over `ℝ` the `-0` normalisation is
invisible, and `Math.round x = ⌊x + 1/2⌋ = round x`. -/
noncomputable def roundTenth (v : ℝ) : ℝ := (round (v * 10) : ℤ) / 10

/-- Raw per-position dB of the HF attenuation curve, `boxIndex` 1-based:
positions in the first half get `posMax * (1 - log(boxIndex) / log(span))`,
positions in the second half mirror the index as
`j = max(1, 2 * span - boxIndex + 1)` and get
`-negMax * (log(span) - log(j)) / log(span)`. -/
noncomputable def hfRawDb (span : ℕ) (posMax negMax : ℝ) (boxIndex : ℕ) : ℝ :=
  if boxIndex ≤ span then
    posMax * (1 - Real.log boxIndex / Real.log span)
  else
    let j : ℤ := max 1 (2 * (span : ℤ) - boxIndex + 1);
    -negMax * ((Real.log span - Real.log (j : ℝ)) / Real.log span)

/-- Final (rounded) per-position dB value assigned by `output_hf_attenuation`
for a run of `total` outputs with shading span option `ratio`:
`span = max(1, ceil(total / 2))`, the total swing is `ratio` clamped to
`[0.1, 24]`, of which 1/3 is positive and 2/3 negative, and the raw value is
rounded to one decimal. -/
noncomputable def hfPositionDb (total : ℕ) (ratio : ℚ) (boxIndex : ℕ) : ℝ :=
  let span := max 1 (ceilHalf total)
  let totalSwing : ℝ := max (1 / 10) (min 24 (ratio : ℝ))
  roundTenth (hfRawDb span (totalSwing / 3) (totalSwing * 2 / 3) boxIndex)

/-- One loop iteration of the `output_hf_attenuation` callback for the
0-based index `i`: channel `S + i` (where `S` is the clamped start output,
which the clamp guarantees to be at least 1), 1-based box index `i + 1`.
It stores band-4 frequency/slope and the band-5 gain and appends the three
corresponding Device Link commands. -/
noncomputable def hfStep (S : ℕ) (dbOf : ℕ → ℝ) (acc : UShapingState × List HFCmd)
    (i : ℕ) : UShapingState × List HFCmd :=
  let ch := S + i
  let db := dbOf (i + 1)
  ({ ushaping := fun c b =>
      (if c = ch ∧ b = 4 then
        { acc.1.ushaping c b with frequency := some band4Frequency, slope := some band4Slope }
       else if c = ch ∧ b = 5 then { acc.1.ushaping c b with gain := some db }
       else acc.1.ushaping c b) },
    acc.2 ++ [HFCmd.frequency ch 4 band4Frequency, HFCmd.slope ch 4 band4Slope,
      HFCmd.gain ch 5 db])

section
open scoped Classical

/-- Translation of the `output_hf_attenuation` callback (`actions/outputs.js`):
clamp the start output to `[1, NUM_OUTPUTS]` and the count to
`[1, NUM_OUTPUTS - start + 1]`, refuse with a warning when
`log(span) <= 0` (i.e. `span = 1`), and otherwise walk the consecutive
channels assigning band-4 frequency/slope and the band-5 shading gain, both
into the local store and as Device Link commands.  The `ch > NUM_OUTPUTS`
break is the `takeWhile`; the `setVariableValues` display refresh is
presentation and not modelled. -/
noncomputable def outputHfAttenuation (numOutputs : ℕ) (startRaw totalRaw : ℤ)
    (ratioRaw : ℚ) (st : UShapingState) : HFResult :=
  let start : ℤ := max 1 (min (numOutputs : ℤ) startRaw)
  let total : ℤ := max 1 (min totalRaw ((numOutputs : ℤ) - start + 1))
  let span : ℕ := max 1 (ceilHalf total.toNat)
  if Real.log span ≤ 0 then
    { st := st, cmds := [], logs := [(.warn, "HF attenuation: invalid span (must be > 1)")] }
  else
    let idxs := (List.range total.toNat).takeWhile fun (i : ℕ) =>
      decide (start + (i : ℤ) ≤ (numOutputs : ℤ))
    let p := idxs.foldl (hfStep start.toNat fun b => hfPositionDb total.toNat ratioRaw b)
      (st, ([] : List HFCmd))
    { st := p.1, cmds := p.2,
      logs := if idxs.length > 0 then [(.info, "HF attenuation")] else [] }

end

/-! ## Theorems -/

/-- C2, counterexample.  At `unit = feet, value = 100` the delay pipeline of the
input/matrix delay actions transmits `round(88.89 * 96) = round(8533.44) = 8533`
samples, not `8534` as the claim computes. -/
theorem C2_counterexample_samples :
    delaySamples 0 500 .feet 100 = 8533 ∧ delaySamples 0 500 .feet 100 ≠ 8534 := by
  constructor <;>
    norm_num [delaySamples, delayTargetMs, roundTo01, clampQ, valueToMs, round_eq]

/-- C2 (amended).  A delay request with `unit = feet, value = 100` converts to
`100 * 1000 / 1125 = 88.888... ms`, rounds to the nearest 0.01 ms giving
`88.89`, which lies within `[0, 500]` (the input and matrix actions clamp to
`[0, 500]`, the output action to `[0, 2000]`; both clamps leave this value
unchanged), and every one of the three delay actions transmits the sample
count `round(88.89 * 96) = 8533`. -/
theorem C2_delay_feet100_pipeline :
    delayTargetMs 0 500 .feet 100 = 8889 / 100
    ∧ delayTargetMs 0 2000 .feet 100 = 8889 / 100
    ∧ ((0 : ℚ) ≤ 8889 / 100 ∧ (8889 / 100 : ℚ) ≤ 500)
    ∧ delaySamples 0 500 .feet 100 = 8533
    ∧ delaySamples 0 2000 .feet 100 = 8533
    ∧ (outputDelaySet 16 [1] .feet 100 ⟨fun _ => none⟩).2.1 = [Cmd.outputDelay 1 8533]
    ∧ (inputDelaySet 16 [1] .feet 100 ⟨fun _ => none⟩).2.1 = [Cmd.inputDelay 1 8533]
    ∧ (matrixDelayFull 16 [1] [1] .feet 100 .unchanged ⟨fun _ _ => ⟨none, none, none⟩⟩).2.1
        = [Cmd.matrixDelayType 1 1 1, Cmd.matrixDelay 1 1 8533] := by
  refine ⟨?_, ?_, ⟨by norm_num, by norm_num⟩, ?_, ?_, ?_, ?_, ?_⟩ <;>
    norm_num +decide [outputDelaySet, inputDelaySet, matrixDelayFull, matrixDelayPairStep,
      safeGetChannels, dedupFirst, dedupFirstAux, DelayUnit.code, delaySamples,
      delayTargetMs, roundTo01, clampQ, valueToMs, round_eq]

/-- Helper: the tier bound is preserved by any run of rotation events. -/
theorem accel_foldl_count_le (maxTier : ℕ) :
    ∀ (events : List ℤ) (st : AccelState), st.count ≤ maxTier →
      (events.foldl (accelStep maxTier) st).count ≤ maxTier := by
  intro events
  induction events with
  | nil => intro st h; exact h
  | cons e tl ih =>
    intro st h
    apply ih
    unfold accelStep
    split
    · exact min_le_right _ _
    · exact Nat.zero_le _

/-- C5.  A rotation event whose gap since the previous event is at least
100 ms resets the stored tier to 0; a faster event increments it by one,
saturating at the configured maximum tier; and along any event sequence from
the missing-key default state the stored tier stays between 0 and the
maximum. -/
theorem C5_accel_tier_behavior (maxTier : ℕ) (st : AccelState) (now : ℤ)
    (events : List ℤ) :
    (100 ≤ now - st.time → (accelStep maxTier st now).count = 0)
    ∧ (now - st.time < 100 →
        (accelStep maxTier st now).count = min (st.count + 1) maxTier)
    ∧ (accelRun maxTier events).count ≤ maxTier
    ∧ 0 ≤ (accelRun maxTier events).count := by
  refine ⟨fun h => ?_, fun h => ?_, ?_, Nat.zero_le _⟩
  · simp [accelStep, show ¬ now - st.time < 100 by omega]
  · simp [accelStep, h]
  · exact accel_foldl_count_le maxTier events _ (Nat.zero_le _)

/-- C5, witness: concrete instantiation of `C5_accel_tier_behavior` with
`maxTier = 3`, a slow event (gap 500 ms) resetting, a fast event (gap 50 ms)
incrementing from tier 2, and a five-event run staying within bounds. -/
theorem C5_witness :
    (accelStep 3 ⟨0, 2⟩ 500).count = 0
    ∧ (accelStep 3 ⟨500, 2⟩ 550).count = min (2 + 1) 3
    ∧ (accelRun 3 [0, 50, 90, 130, 140]).count ≤ 3
    ∧ 0 ≤ (accelRun 3 [0, 50, 90, 130, 140]).count :=
  ⟨(C5_accel_tier_behavior 3 ⟨0, 2⟩ 500 []).1 (by decide),
   (C5_accel_tier_behavior 3 ⟨500, 2⟩ 550 []).2.1 (by decide),
   (C5_accel_tier_behavior 3 ⟨0, 0⟩ 0 [0, 50, 90, 130, 140]).2.2.1,
   (C5_accel_tier_behavior 3 ⟨0, 0⟩ 0 [0, 50, 90, 130, 140]).2.2.2⟩

/-- Helper: a singleton in-range raw selection normalizes to that channel. -/
theorem safeGetChannels_singleton (ch numCh : ℕ) (h1 : 1 ≤ ch) (h2 : ch ≤ numCh) :
    safeGetChannels [(ch : ℤ)] numCh = [ch] := by
  have ha : (1 : ℤ) ≤ (ch : ℤ) := by exact_mod_cast h1
  have hb : (ch : ℤ) ≤ (numCh : ℤ) := by exact_mod_cast h2
  simp [safeGetChannels, dedupFirst, dedupFirstAux, ha, hb]

/-- C6.  From the initial (unset) pair-toggle state, three successive `pair`
invocations of the gain action with `gain_a = 0, gain_b = -6` apply `0`,
then `-6`, then `0` dB — the applied value alternates between A and B
starting with A, and the stored toggle tag cycles `A`, `B`, `A`. -/
theorem C6_gain_pair_toggle (numOutputs ch : ℕ) (h1 : 1 ≤ ch) (h2 : ch ≤ numOutputs) :
    let st0 : GainState := ⟨fun _ => none, fun _ => none, fun _ => none⟩
    let r1 := outputGainSet numOutputs [(ch : ℤ)] .pair 0 0 (-6) 0 0 .linear st0
    let r2 := outputGainSet numOutputs [(ch : ℤ)] .pair 0 0 (-6) 0 0 .linear r1.1
    let r3 := outputGainSet numOutputs [(ch : ℤ)] .pair 0 0 (-6) 0 0 .linear r2.1
    GainEff.setGain ch 0 ∈ r1.2.1
    ∧ GainEff.setGain ch (-6) ∈ r2.2.1
    ∧ GainEff.setGain ch 0 ∈ r3.2.1
    ∧ r1.1.gainToggle ch = some ABTag.A
    ∧ r2.1.gainToggle ch = some ABTag.B
    ∧ r3.1.gainToggle ch = some ABTag.A := by
  simp [outputGainSet, safeGetChannels_singleton ch numOutputs h1 h2, setOutputGainModel]

/-- C6, witness: concrete instantiation of `C6_gain_pair_toggle` at
channel 3 of 16 outputs. -/
theorem C6_witness :
    let st0 : GainState := ⟨fun _ => none, fun _ => none, fun _ => none⟩
    let r1 := outputGainSet 16 [(3 : ℤ)] .pair 0 0 (-6) 0 0 .linear st0
    let r2 := outputGainSet 16 [(3 : ℤ)] .pair 0 0 (-6) 0 0 .linear r1.1
    let r3 := outputGainSet 16 [(3 : ℤ)] .pair 0 0 (-6) 0 0 .linear r2.1
    GainEff.setGain 3 0 ∈ r1.2.1
    ∧ GainEff.setGain 3 (-6) ∈ r2.2.1
    ∧ GainEff.setGain 3 0 ∈ r3.2.1
    ∧ r1.1.gainToggle 3 = some ABTag.A
    ∧ r2.1.gainToggle 3 = some ABTag.B
    ∧ r3.1.gainToggle 3 = some ABTag.A :=
  C6_gain_pair_toggle 16 3 (by decide) (by decide)

/-- Helper: folding a function that ignores its list element is the identity. -/
theorem foldl_const_acc {α β : Type} (l : List β) (x : α) :
    l.foldl (fun a _ => a) x = x := by
  induction l generalizing x with
  | nil => rfl
  | cons h t ih => exact ih x

/-- Helper: `BypassOnlyExt` is reflexive. -/
theorem bypassOnlyExt_rfl (acc : MatrixDelayState × List Cmd) : BypassOnlyExt acc acc :=
  ⟨fun _ _ => ⟨rfl, rfl⟩, [], by simp, by simp⟩

/-- Helper: `BypassOnlyExt` is transitive. -/
theorem bypassOnlyExt_trans {a b c : MatrixDelayState × List Cmd}
    (h1 : BypassOnlyExt a b) (h2 : BypassOnlyExt b c) : BypassOnlyExt a c := by
  obtain ⟨hs1, t1, he1, hb1⟩ := h1
  obtain ⟨hs2, t2, he2, hb2⟩ := h2
  refine ⟨fun x y => ⟨(hs2 x y).1.trans (hs1 x y).1, (hs2 x y).2.trans (hs1 x y).2⟩,
    t1 ++ t2, by rw [he2, he1, List.append_assoc], ?_⟩
  intro c hc
  rcases List.mem_append.mp hc with h | h
  exacts [hb1 c h, hb2 c h]

/-- Helper: with the `unchanged` unit, one pair step touches only the bypass
field and appends at most a bypass command. -/
theorem matrixDelayPairStep_unchanged_ext (value : ℚ) (sm : DelayStatusMode) (i o : ℕ)
    (acc : MatrixDelayState × List Cmd) :
    BypassOnlyExt acc (matrixDelayPairStep .unchanged value sm i o acc) := by
  by_cases h : sm = DelayStatusMode.unchanged
  · subst h
    have hid : matrixDelayPairStep .unchanged value .unchanged i o acc = acc := by
      simp [matrixDelayPairStep]
    rw [hid]
    exact bypassOnlyExt_rfl acc
  · refine ⟨fun a b => ?_, ?_⟩
    · by_cases hab : a = i ∧ b = o <;> simp [matrixDelayPairStep, h, hab]
    · refine ⟨[Cmd.matrixDelayBypass i o (if sm = DelayStatusMode.toggle
          then !((acc.1.matrixDelay i o).bypass.getD false)
          else decide (sm = DelayStatusMode.off))], by simp [matrixDelayPairStep, h], ?_⟩
      intro c hc
      rw [List.mem_singleton] at hc
      exact ⟨i, o, _, hc⟩

/-- Helper: with the `unchanged` unit and `unchanged` status, one pair step is
the identity. -/
theorem matrixDelayPairStep_id (value : ℚ) (i o : ℕ) (acc : MatrixDelayState × List Cmd) :
    matrixDelayPairStep .unchanged value .unchanged i o acc = acc := by
  simp [matrixDelayPairStep]

/-- Helper: the inner fold over outputs with the `unchanged` unit is a
bypass-only extension. -/
theorem matrixFold_outs_unchanged_ext (value : ℚ) (sm : DelayStatusMode) (i : ℕ) :
    ∀ (outs : List ℕ) (acc : MatrixDelayState × List Cmd),
      BypassOnlyExt acc
        (outs.foldl (fun a o => matrixDelayPairStep .unchanged value sm i o a) acc) := by
  intro outs
  induction outs with
  | nil => intro acc; exact bypassOnlyExt_rfl _
  | cons o t ih =>
    intro acc
    exact bypassOnlyExt_trans (matrixDelayPairStep_unchanged_ext value sm i o acc) (ih _)

/-- Helper: the double fold over inputs and outputs with the `unchanged` unit
is a bypass-only extension. -/
theorem matrixFold_all_unchanged_ext (value : ℚ) (sm : DelayStatusMode) (outs : List ℕ) :
    ∀ (inputs : List ℕ) (acc : MatrixDelayState × List Cmd),
      BypassOnlyExt acc
        (inputs.foldl (fun acc1 i =>
          outs.foldl (fun a o => matrixDelayPairStep .unchanged value sm i o a) acc1) acc) := by
  intro inputs
  induction inputs with
  | nil => intro acc; exact bypassOnlyExt_rfl _
  | cons i t ih =>
    intro acc
    exact bypassOnlyExt_trans (matrixFold_outs_unchanged_ext value sm i outs acc) (ih _)

/-- C7, counterexample.  A matrix delay request with unit `unchanged` but
`delay_status = on` does transmit a Device Link command (the bypass write)
and does mutate stored delay state (the bypass flag), contradicting the claim
that such a request transmits no command and mutates no stored delay state. -/
theorem C7_counterexample_matrix_status :
    (matrixDelayFull 16 [1] [1] .unchanged 0 .on ⟨fun _ _ => ⟨none, none, none⟩⟩).2.1
      = [Cmd.matrixDelayBypass 1 1 false]
    ∧ (matrixDelayFull 16 [1] [1] .unchanged 0 .on ⟨fun _ _ => ⟨none, none, none⟩⟩).2.1 ≠ []
    ∧ ((matrixDelayFull 16 [1] [1] .unchanged 0 .on
        ⟨fun _ _ => ⟨none, none, none⟩⟩).1.matrixDelay 1 1).bypass = some false := by
  refine ⟨?_, ?_, ?_⟩ <;>
    norm_num +decide [matrixDelayFull, matrixDelayPairStep, safeGetChannels, dedupFirst,
      dedupFirstAux]

/-- C7 (amended).  A delay request whose unit is the sentinel `unchanged`
performs no unit conversion: the input and output delay actions transmit
nothing and mutate nothing at all; the matrix delay action transmits no
delay-type or delay-value command and leaves stored delay values and types
untouched, though its independent `delay_status` suboption may still write
bypass state and transmit bypass commands — and when that suboption is also
`unchanged`, the matrix action too transmits nothing and mutates nothing. -/
theorem C7_unchanged_unit_skips (numCh : ℕ) (rawChs rawIns rawOuts : List ℤ) (value : ℚ)
    (statusMode : DelayStatusMode) (stO : OutputDelayState) (stI : InputDelayState)
    (stM : MatrixDelayState) :
    ((outputDelaySet numCh rawChs .unchanged value stO).1 = stO
      ∧ (outputDelaySet numCh rawChs .unchanged value stO).2.1 = [])
    ∧ ((inputDelaySet numCh rawChs .unchanged value stI).1 = stI
      ∧ (inputDelaySet numCh rawChs .unchanged value stI).2.1 = [])
    ∧ BypassOnlyExt (stM, [])
        ((matrixDelayFull numCh rawIns rawOuts .unchanged value statusMode stM).1,
          (matrixDelayFull numCh rawIns rawOuts .unchanged value statusMode stM).2.1)
    ∧ ((matrixDelayFull numCh rawIns rawOuts .unchanged value .unchanged stM).1 = stM
      ∧ (matrixDelayFull numCh rawIns rawOuts .unchanged value .unchanged stM).2.1 = []) := by
  refine ⟨?_, ?_, ?_, ?_⟩
  · by_cases hc : safeGetChannels rawChs numCh = [] <;>
      simp [outputDelaySet, hc, foldl_const_acc]
  · by_cases hc : safeGetChannels rawChs numCh = [] <;>
      simp [inputDelaySet, hc, foldl_const_acc]
  · by_cases hc : safeGetChannels rawIns 32 = [] ∨ safeGetChannels rawOuts numCh = []
    · simp [matrixDelayFull, hc]
      exact bypassOnlyExt_rfl _
    · simp [matrixDelayFull, hc]
      exact matrixFold_all_unchanged_ext value statusMode _ _ _
  · by_cases hc : safeGetChannels rawIns 32 = [] ∨ safeGetChannels rawOuts numCh = [] <;>
      simp [matrixDelayFull, hc, matrixDelayPairStep_id, foldl_const_acc]

/-- C8, counterexample.  The `input_eq_bypass` action invoked with an empty
channel selection transmits nothing and mutates nothing, but produces no log
entry at all — in particular no warn-level entry, contrary to the claim that
every multi-channel action logs at warn level in this situation. -/
theorem C8_counterexample_eq_bypass_no_warn :
    (inputEqBypass 16 [] .set true ⟨fun _ => none⟩).2.2 = []
    ∧ (inputEqBypass 16 [] .set true ⟨fun _ => none⟩).2.1 = []
    ∧ (inputEqBypass 16 [] .set true ⟨fun _ => none⟩).1 = (⟨fun _ => none⟩ : InputEqState) :=
  ⟨rfl, rfl, rfl⟩

/-- C8 (amended).  When the raw channel selection normalizes to the empty
set, every embedded multi-channel action is skipped entirely — no Device Link
command is transmitted and no state is mutated; the gain and mute actions
(like all the guarded callbacks) log one warn-level entry, but
`input_eq_bypass` lacks the guard and skips silently with no log entry. -/
theorem C8_empty_selection_skips (numCh : ℕ) (raw : List ℤ)
    (mode : GainMode) (g gA gB d f : ℚ) (curve : Curve) (stG : GainState)
    (op : SwitchOp) (stMu : MuteState)
    (eqMode : EqMode) (eqState : Bool) (stE : InputEqState)
    (hEmpty : safeGetChannels raw numCh = []) :
    ((outputGainSet numCh raw mode g gA gB d f curve stG).1 = stG
      ∧ (outputGainSet numCh raw mode g gA gB d f curve stG).2.1 = []
      ∧ (outputGainSet numCh raw mode g gA gB d f curve stG).2.2
          = [(.warn, "No valid output channels selected")])
    ∧ ((muteControl numCh op raw stMu).1 = stMu
      ∧ (muteControl numCh op raw stMu).2 = [(.warn, "No valid input channels selected")])
    ∧ ((inputEqBypass numCh raw eqMode eqState stE).1 = stE
      ∧ (inputEqBypass numCh raw eqMode eqState stE).2.1 = []
      ∧ (inputEqBypass numCh raw eqMode eqState stE).2.2 = []) := by
  refine ⟨?_, ?_, ?_⟩
  · simp [outputGainSet, hEmpty]
  · simp [muteControl, hEmpty]
  · simp [inputEqBypass, hEmpty]

/-- C8, witness: concrete instantiation of `C8_empty_selection_skips` with the
raw selection `[99]`, which normalizes to the empty set for 16 channels. -/
theorem C8_witness :
    ((outputGainSet 16 [99] .pair 0 0 0 0 0 .linear
        ⟨fun _ => none, fun _ => none, fun _ => none⟩).1
      = (⟨fun _ => none, fun _ => none, fun _ => none⟩ : GainState)
      ∧ (outputGainSet 16 [99] .pair 0 0 0 0 0 .linear
          ⟨fun _ => none, fun _ => none, fun _ => none⟩).2.1 = []
      ∧ (outputGainSet 16 [99] .pair 0 0 0 0 0 .linear
          ⟨fun _ => none, fun _ => none, fun _ => none⟩).2.2
          = [(.warn, "No valid output channels selected")])
    ∧ ((muteControl 16 .toggle [99] ⟨fun _ => false, none⟩).1
        = (⟨fun _ => false, none⟩ : MuteState)
      ∧ (muteControl 16 .toggle [99] ⟨fun _ => false, none⟩).2
          = [(.warn, "No valid input channels selected")])
    ∧ ((inputEqBypass 16 [99] .set true ⟨fun _ => none⟩).1 = (⟨fun _ => none⟩ : InputEqState)
      ∧ (inputEqBypass 16 [99] .set true ⟨fun _ => none⟩).2.1 = []
      ∧ (inputEqBypass 16 [99] .set true ⟨fun _ => none⟩).2.2 = []) :=
  C8_empty_selection_skips 16 [99] .pair 0 0 0 0 0 .linear
    ⟨fun _ => none, fun _ => none, fun _ => none⟩ .toggle ⟨fun _ => false, none⟩
    .set true ⟨fun _ => none⟩ (by decide)

/-- Helper: the clamp `max lo (min hi x)` lands in `[lo, hi]`. -/
theorem clamp_bounds (lo hi x : ℚ) (h : lo ≤ hi) :
    lo ≤ max lo (min hi x) ∧ max lo (min hi x) ≤ hi :=
  ⟨le_max_left _ _, max_le h (min_le_left _ _)⟩

/-- C9.  Every embedded mutation path clamps the value to its subsystem
bounds before storing: the `input_ushaping` set/adjust paths keep gain in
`[-18, 18]` dB, frequency in `[10, 20000]` Hz and slope in `[0.1, 2]`; the
U-Shaping knob gain path stores within `[-15, 15]`; and the gain setter
(module core, modelled from the spec) stores within the gain bounds
`[-90, 10]` or leaves the entry untouched. -/
theorem C9_mutation_paths_clamp (mode : UMode) (current deltaOpt valueOpt : Option ℚ)
    (kcur : Option ℚ) (kdelta : ℚ) (ch : ℕ) (v : ℚ) (st : GainState) :
    (-18 ≤ inputUShapingFinalValue mode .gain current deltaOpt valueOpt
      ∧ inputUShapingFinalValue mode .gain current deltaOpt valueOpt ≤ 18)
    ∧ (10 ≤ inputUShapingFinalValue mode .frequency current deltaOpt valueOpt
      ∧ inputUShapingFinalValue mode .frequency current deltaOpt valueOpt ≤ 20000)
    ∧ (1 / 10 ≤ inputUShapingFinalValue mode .slope current deltaOpt valueOpt
      ∧ inputUShapingFinalValue mode .slope current deltaOpt valueOpt ≤ 2)
    ∧ (-15 ≤ outputUShapingKnobGainFinal kcur kdelta
      ∧ outputUShapingKnobGainFinal kcur kdelta ≤ 15)
    ∧ (∀ c, (setOutputGainModel ch v st).outputGain c = st.outputGain c
        ∨ ∃ w, (setOutputGainModel ch v st).outputGain c = some w ∧ -90 ≤ w ∧ w ≤ 10) := by
  refine ⟨?_, ?_, ?_, ?_, ?_⟩
  · cases mode <;> exact clamp_bounds _ _ _ (by norm_num)
  · cases mode <;> exact clamp_bounds _ _ _ (by norm_num)
  · cases mode <;> exact clamp_bounds _ _ _ (by norm_num)
  · exact clamp_bounds _ _ _ (by norm_num)
  · intro c
    by_cases hc : c = ch
    · refine Or.inr ⟨clampQ v (-90) 10, by simp [setOutputGainModel, hc], ?_⟩
      exact clamp_bounds (-90) 10 v (by norm_num)
    · exact Or.inl (by simp [setOutputGainModel, hc])

/-- C3.  Starting unsoloed, activating solo on one set, then on a different
set, then unsoloing restores exactly the per-channel mute state that held
immediately before the first activation; the `prevMute` snapshot is taken
only on the first activation (it equals the pre-solo mutes on channels
`1..N`) and is reused unchanged by the second activation until the unsolo
discards it. -/
theorem C3_solo_restores_presolo_mutes (numCh : ℕ) (raw1 raw2 : List ℤ) (st : MuteState)
    (h0 : st.soloState = none)
    (h1 : safeGetChannels raw1 numCh ≠ [])
    (h2 : safeGetChannels raw2 numCh ≠ [])
    (_h3 : safeGetChannels raw2 numCh ≠ safeGetChannels raw1 numCh) (ch : ℕ) :
    ((soloAction numCh .off raw2
        ((soloAction numCh .on raw2 ((soloAction numCh .on raw1 st).1)).1)).1).mute ch
      = st.mute ch
    ∧ (((soloAction numCh .on raw2 ((soloAction numCh .on raw1 st).1)).1).soloState.map
        fun s => s.prevMute ch)
      = (((soloAction numCh .on raw1 st).1).soloState.map fun s => s.prevMute ch)
    ∧ (((soloAction numCh .on raw1 st).1).soloState.map fun s => s.prevMute ch)
      = some (if 1 ≤ ch ∧ ch ≤ numCh then some (st.mute ch) else none) := by
  by_cases hr : 1 ≤ ch ∧ ch ≤ numCh <;>
    simp [soloAction, h0, h1, h2, hr]

/-- C3, witness: concrete instantiation of `C3_solo_restores_presolo_mutes`
with 4 channels, channel 2 initially muted, solo on channel 1 then channel 2,
then unsolo, observed at channel 2. -/
theorem C3_witness :
    let st0 : MuteState := ⟨fun c => decide (c = 2), none⟩
    ((soloAction 4 .off [2]
        ((soloAction 4 .on [2] ((soloAction 4 .on [1] st0).1)).1)).1).mute 2
      = st0.mute 2
    ∧ (((soloAction 4 .on [2] ((soloAction 4 .on [1] st0).1)).1).soloState.map
        fun s => s.prevMute 2)
      = (((soloAction 4 .on [1] st0).1).soloState.map fun s => s.prevMute 2)
    ∧ (((soloAction 4 .on [1] st0).1).soloState.map fun s => s.prevMute 2)
      = some (if 1 ≤ 2 ∧ 2 ≤ 4 then some (st0.mute 2) else none) :=
  C3_solo_restores_presolo_mutes 4 [1] [2] ⟨fun c => decide (c = 2), none⟩
    rfl (by decide) (by decide) (by decide) 2

/-- Helper: with at most two requested loudspeakers the computed half-array
span is 1. -/
theorem hf_span_eq_one (numOutputs : ℕ) (startRaw totalRaw : ℤ) (hT : totalRaw ≤ 2) :
    max 1 (ceilHalf (max 1 (min totalRaw
      ((numOutputs : ℤ) - max 1 (min (numOutputs : ℤ) startRaw) + 1))).toNat) = 1 := by
  unfold ceilHalf
  omega

/-- C4.  When the clamped loudspeaker count is 1 or 2 the half-array span is
1, `log(span) = 0`, and the HF attenuation action refuses: it reports the
invalid-span warning, transmits no command and mutates no stored state (the
per-position computation, with its division by `log(span)`, is never
reached). -/
theorem C4_hf_attenuation_invalid_span (numOutputs : ℕ) (startRaw totalRaw : ℤ)
    (ratioRaw : ℚ) (st : UShapingState) (hT : totalRaw ≤ 2) :
    outputHfAttenuation numOutputs startRaw totalRaw ratioRaw st
      = { st := st, cmds := [],
          logs := [(.warn, "HF attenuation: invalid span (must be > 1)")] } := by
  simp only [outputHfAttenuation, hf_span_eq_one numOutputs startRaw totalRaw hT]
  rw [if_pos (by simp : Real.log ((1 : ℕ) : ℝ) ≤ 0)]

/-- C4, witness: concrete instantiation of `C4_hf_attenuation_invalid_span`
with 8 outputs, start 1, total 2. -/
theorem C4_witness :
    outputHfAttenuation 8 1 2 8 ⟨fun _ _ => ⟨none, none, none⟩⟩
      = { st := ⟨fun _ _ => ⟨none, none, none⟩⟩, cmds := [],
          logs := [(.warn, "HF attenuation: invalid span (must be > 1)")] } :=
  C4_hf_attenuation_invalid_span 8 1 2 8 ⟨fun _ _ => ⟨none, none, none⟩⟩ (by decide)

/-- Helper: `takeWhile` over a list whose elements all satisfy the predicate
is the identity. -/
theorem takeWhile_all {α : Type} (p : α → Bool) :
    ∀ l : List α, (∀ x ∈ l, p x = true) → l.takeWhile p = l := by
  intro l
  induction l with
  | nil => intro _; rfl
  | cons a t ih =>
    intro h
    rw [List.takeWhile_cons, if_pos (h a (List.mem_cons_self a t)),
      ih fun x hx => h x (List.mem_cons_of_mem a hx)]

/-- Helper: first component of one `hfStep`, as a pointwise store equation. -/
theorem hfStep_fst (S : ℕ) (dbOf : ℕ → ℝ) (acc : UShapingState × List HFCmd)
    (i c b : ℕ) :
    ((hfStep S dbOf acc i).1).ushaping c b
      = if c = S + i ∧ b = 4 then { acc.1.ushaping c b with frequency := some band4Frequency, slope := some band4Slope }
        else if c = S + i ∧ b = 5 then { acc.1.ushaping c b with gain := some (dbOf (i + 1)) }
        else acc.1.ushaping c b := rfl

/-- Helper: second component of one `hfStep`: the three appended commands. -/
theorem hfStep_snd (S : ℕ) (dbOf : ℕ → ℝ) (acc : UShapingState × List HFCmd) (i : ℕ) :
    (hfStep S dbOf acc i).2
      = acc.2 ++ [HFCmd.frequency (S + i) 4 band4Frequency,
          HFCmd.slope (S + i) 4 band4Slope, HFCmd.gain (S + i) 5 (dbOf (i + 1))] := rfl

/-- Helper: the U-Shaping store after folding `hfStep` over `range n`:
channels `S .. S+n-1` get band-4 frequency/slope and the band-5 gain,
with all other fields untouched. -/
theorem hfFold_store (S : ℕ) (dbOf : ℕ → ℝ) :
    ∀ (n : ℕ) (acc : UShapingState × List HFCmd) (c b : ℕ),
      (((List.range n).foldl (hfStep S dbOf) acc).1).ushaping c b
        = if S ≤ c ∧ c < S + n ∧ b = 4 then { acc.1.ushaping c b with frequency := some band4Frequency, slope := some band4Slope }
          else if S ≤ c ∧ c < S + n ∧ b = 5 then { acc.1.ushaping c b with gain := some (dbOf (c - S + 1)) }
          else acc.1.ushaping c b := by
  intro n
  induction n with
  | zero =>
    intro acc c b
    rw [List.range_zero, List.foldl_nil, if_neg (by omega), if_neg (by omega)]
  | succ n ih =>
    intro acc c b
    rw [List.range_succ, List.foldl_append, List.foldl_cons, List.foldl_nil, hfStep_fst]
    simp only [ih]
    split_ifs <;> first | rfl | omega | (exfalso; omega) | simp_all

/-- Helper: the command list after folding `hfStep` over `range n`. -/
theorem hfFold_cmds (S : ℕ) (dbOf : ℕ → ℝ) :
    ∀ (n : ℕ) (acc : UShapingState × List HFCmd),
      (((List.range n).foldl (hfStep S dbOf) acc).2)
        = acc.2 ++ ((List.range n).flatMap fun i =>
            [HFCmd.frequency (S + i) 4 band4Frequency, HFCmd.slope (S + i) 4 band4Slope,
             HFCmd.gain (S + i) 5 (dbOf (i + 1))]) := by
  intro n
  induction n with
  | zero => intro acc; simp
  | succ n ih =>
    intro acc
    rw [List.range_succ, List.foldl_append, List.foldl_cons, List.foldl_nil, hfStep_snd, ih]
    simp [List.append_assoc]

/-- C10.  A non-degenerate HF attenuation invocation (in-range start, at
least 3 loudspeakers so the span is at least 2), besides distributing the
band-5 gains, sets U-Shaping band-4 frequency to exactly 8000 Hz and band-4
slope to exactly 1 on every affected output channel — both in the local store
and as transmitted commands — and modifies nothing else: band-4 gain, band-5
frequency/slope, every other band, and every unaffected channel keep their
stored values. -/
theorem C10_hf_sets_band4 (numOutputs : ℕ) (startRaw totalRaw : ℤ) (ratioRaw : ℚ)
    (st : UShapingState) (c b : ℕ)
    (hs1 : 1 ≤ startRaw) (hs2 : startRaw ≤ (numOutputs : ℤ))
    (ht1 : 3 ≤ totalRaw) (ht2 : startRaw + totalRaw - 1 ≤ (numOutputs : ℤ)) :
    (startRaw.toNat ≤ c → c < startRaw.toNat + totalRaw.toNat →
      ((outputHfAttenuation numOutputs startRaw totalRaw ratioRaw st).st.ushaping c 4).frequency
          = some 8000
      ∧ ((outputHfAttenuation numOutputs startRaw totalRaw ratioRaw st).st.ushaping c 4).slope
          = some 1
      ∧ ((outputHfAttenuation numOutputs startRaw totalRaw ratioRaw st).st.ushaping c 4).gain
          = (st.ushaping c 4).gain
      ∧ ((outputHfAttenuation numOutputs startRaw totalRaw ratioRaw st).st.ushaping c 5).gain
          = some (hfPositionDb totalRaw.toNat ratioRaw (c - startRaw.toNat + 1))
      ∧ ((outputHfAttenuation numOutputs startRaw totalRaw ratioRaw st).st.ushaping c 5).frequency
          = (st.ushaping c 5).frequency
      ∧ ((outputHfAttenuation numOutputs startRaw totalRaw ratioRaw st).st.ushaping c 5).slope
          = (st.ushaping c 5).slope
      ∧ HFCmd.frequency c 4 8000 ∈ (outputHfAttenuation numOutputs startRaw totalRaw ratioRaw st).cmds
      ∧ HFCmd.slope c 4 1 ∈ (outputHfAttenuation numOutputs startRaw totalRaw ratioRaw st).cmds
      ∧ HFCmd.gain c 5 (hfPositionDb totalRaw.toNat ratioRaw (c - startRaw.toNat + 1))
          ∈ (outputHfAttenuation numOutputs startRaw totalRaw ratioRaw st).cmds)
    ∧ ((c < startRaw.toNat ∨ startRaw.toNat + totalRaw.toNat ≤ c ∨ (b ≠ 4 ∧ b ≠ 5)) →
      (outputHfAttenuation numOutputs startRaw totalRaw ratioRaw st).st.ushaping c b
        = st.ushaping c b) := by
  have hstart : max 1 (min (numOutputs : ℤ) startRaw) = startRaw := by omega
  have htotal : max 1 (min totalRaw ((numOutputs : ℤ) - startRaw + 1)) = totalRaw := by omega
  have hguard : ¬ Real.log ((max 1 (ceilHalf totalRaw.toNat) : ℕ) : ℝ) ≤ 0 := by
    have hspan : 2 ≤ max 1 (ceilHalf totalRaw.toNat) := by
      unfold ceilHalf
      omega
    exact not_le.mpr (Real.log_pos (by exact_mod_cast Nat.lt_of_lt_of_le Nat.one_lt_two hspan))
  have hall : ∀ x ∈ List.range totalRaw.toNat,
      (fun (i : ℕ) => decide (startRaw + (i : ℤ) ≤ (numOutputs : ℤ))) x = true := by
    intro x hx
    rw [List.mem_range] at hx
    rw [decide_eq_true_eq]
    omega
  have hres : outputHfAttenuation numOutputs startRaw totalRaw ratioRaw st
      = { st := ((List.range totalRaw.toNat).foldl
            (hfStep startRaw.toNat fun bi => hfPositionDb totalRaw.toNat ratioRaw bi)
            (st, [])).1,
          cmds := ((List.range totalRaw.toNat).foldl
            (hfStep startRaw.toNat fun bi => hfPositionDb totalRaw.toNat ratioRaw bi)
            (st, [])).2,
          logs := if (List.range totalRaw.toNat).length > 0
            then [(.info, "HF attenuation")] else [] } := by
    simp only [outputHfAttenuation, hstart, htotal, if_neg hguard,
      takeWhile_all _ _ hall]
  rw [hres]
  constructor
  · intro hc1 hc2
    simp only [hfFold_store, hfFold_cmds, List.nil_append]
    refine ⟨?_, ?_, ?_, ?_, ?_, ?_, ?_, ?_, ?_⟩ <;>
      first
      | exact List.mem_flatMap.mpr ⟨c - startRaw.toNat, List.mem_range.mpr (by omega),
          by simp [band4Frequency, band4Slope,
            show startRaw.toNat + (c - startRaw.toNat) = c by omega]⟩
      | simp [hc1, hc2, band4Frequency, band4Slope]
  · intro hout
    simp only [hfFold_store]
    rw [if_neg (by omega), if_neg (by omega)]

/-- C10, witness: concrete instantiation of `C10_hf_sets_band4` with 8
outputs, start 1, total 4, span option 8, observed at channel 2 / band 3. -/
theorem C10_witness :
    let st0 : UShapingState := ⟨fun _ _ => ⟨none, none, none⟩⟩
    ((1 : ℤ).toNat ≤ 2 → 2 < (1 : ℤ).toNat + (4 : ℤ).toNat →
      ((outputHfAttenuation 8 1 4 8 st0).st.ushaping 2 4).frequency = some 8000
      ∧ ((outputHfAttenuation 8 1 4 8 st0).st.ushaping 2 4).slope = some 1
      ∧ ((outputHfAttenuation 8 1 4 8 st0).st.ushaping 2 4).gain = (st0.ushaping 2 4).gain
      ∧ ((outputHfAttenuation 8 1 4 8 st0).st.ushaping 2 5).gain
          = some (hfPositionDb (4 : ℤ).toNat 8 (2 - (1 : ℤ).toNat + 1))
      ∧ ((outputHfAttenuation 8 1 4 8 st0).st.ushaping 2 5).frequency
          = (st0.ushaping 2 5).frequency
      ∧ ((outputHfAttenuation 8 1 4 8 st0).st.ushaping 2 5).slope = (st0.ushaping 2 5).slope
      ∧ HFCmd.frequency 2 4 8000 ∈ (outputHfAttenuation 8 1 4 8 st0).cmds
      ∧ HFCmd.slope 2 4 1 ∈ (outputHfAttenuation 8 1 4 8 st0).cmds
      ∧ HFCmd.gain 2 5 (hfPositionDb (4 : ℤ).toNat 8 (2 - (1 : ℤ).toNat + 1))
          ∈ (outputHfAttenuation 8 1 4 8 st0).cmds)
    ∧ ((2 < (1 : ℤ).toNat ∨ (1 : ℤ).toNat + (4 : ℤ).toNat ≤ 2 ∨ ((3 : ℕ) ≠ 4 ∧ (3 : ℕ) ≠ 5)) →
      (outputHfAttenuation 8 1 4 8 st0).st.ushaping 2 3 = st0.ushaping 2 3) :=
  C10_hf_sets_band4 8 1 4 8 ⟨fun _ _ => ⟨none, none, none⟩⟩ 2 3
    (by decide) (by decide) (by decide) (by decide)

/-- Helper: `log 4` is positive. -/
theorem log4_pos : (0 : ℝ) < Real.log 4 := Real.log_pos (by norm_num)

/-- Helper: `log 4 = 2 log 2`. -/
theorem log4_eq : Real.log 4 = 2 * Real.log 2 := by
  rw [show (4 : ℝ) = 2 ^ 2 by norm_num, Real.log_pow]
  push_cast
  ring

/-- Helper: lower bound `251/320 < log 3 / log 4`, from `4^251 < 3^320`. -/
theorem log3_div_log4_gt : (251 : ℝ) / 320 < Real.log 3 / Real.log 4 := by
  rw [div_lt_div_iff₀ (by norm_num) log4_pos]
  have hp : (4 : ℝ) ^ 251 < 3 ^ 320 := by norm_num
  have hl := Real.log_lt_log (by positivity) hp
  rw [Real.log_pow, Real.log_pow] at hl
  push_cast at hl
  linarith

/-- Helper: upper bound `log 3 / log 4 < 254/320`, from `3^320 < 4^254`. -/
theorem log3_div_log4_lt : Real.log 3 / Real.log 4 < (254 : ℝ) / 320 := by
  rw [div_lt_div_iff₀ log4_pos (by norm_num)]
  have hp : (3 : ℝ) ^ 320 < 4 ^ 254 := by norm_num
  have hl := Real.log_lt_log (by positivity) hp
  rw [Real.log_pow, Real.log_pow] at hl
  push_cast at hl
  linarith

/-- Helper: `log 2 / log 4 = 1/2`. -/
theorem log2_div_log4 : Real.log 2 / Real.log 4 = 1 / 2 := by
  rw [log4_eq, div_eq_iff (by have := Real.log_pos (show (1 : ℝ) < 2 by norm_num); positivity)]
  ring

/-- Helper: `roundTenth v = k/10` once `v * 10 + 1/2` is bracketed in `[k, k+1)`. -/
theorem roundTenth_eq_int (v : ℝ) (k : ℤ) (h1 : (k : ℝ) ≤ v * 10 + 1 / 2)
    (h2 : v * 10 + 1 / 2 < (k : ℝ) + 1) : roundTenth v = (k : ℝ) / 10 := by
  unfold roundTenth
  rw [round_eq, Int.floor_eq_iff.mpr ⟨h1, h2⟩]

/-- Helper: at `total = 8, ratio = 8` the half-array span is 4, the clamped
swing is 8 dB, and the per-position value is the rounded raw curve with
positive maximum `8/3` and negative maximum `16/3`. -/
theorem hfPositionDb_eight (i : ℕ) :
    hfPositionDb 8 8 i = roundTenth (hfRawDb 4 (8 / 3) (16 / 3) i) := by
  unfold hfPositionDb
  norm_num [ceilHalf]

/-- C1.  For the HF attenuation curve with `total = 8` consecutive outputs
and span option `ratio = 8` dB: the gain at position 1 is `+2.7` dB (the
rounded positive maximum `+8/3`), the gain at position 8 is `-5.3` dB (the
rounded negative maximum `-16/3`), the full sequence of per-position gains is
`2.7, 1.3, 0.6, 0, 0, -1.1, -2.7, -5.3`, and it is monotonically
non-increasing from position 1 through position 8. -/
theorem C1_hf_attenuation_curve :
    (hfPositionDb 8 8 1 = 27 / 10 ∧ hfPositionDb 8 8 2 = 13 / 10
      ∧ hfPositionDb 8 8 3 = 6 / 10 ∧ hfPositionDb 8 8 4 = 0 ∧ hfPositionDb 8 8 5 = 0
      ∧ hfPositionDb 8 8 6 = -(11 / 10) ∧ hfPositionDb 8 8 7 = -(27 / 10)
      ∧ hfPositionDb 8 8 8 = -(53 / 10))
    ∧ (hfPositionDb 8 8 2 ≤ hfPositionDb 8 8 1 ∧ hfPositionDb 8 8 3 ≤ hfPositionDb 8 8 2
      ∧ hfPositionDb 8 8 4 ≤ hfPositionDb 8 8 3 ∧ hfPositionDb 8 8 5 ≤ hfPositionDb 8 8 4
      ∧ hfPositionDb 8 8 6 ≤ hfPositionDb 8 8 5 ∧ hfPositionDb 8 8 7 ≤ hfPositionDb 8 8 6
      ∧ hfPositionDb 8 8 8 ≤ hfPositionDb 8 8 7) := by
  have hg := log3_div_log4_gt
  have hl := log3_div_log4_lt
  have e1 : hfPositionDb 8 8 1 = 27 / 10 := by
    rw [hfPositionDb_eight]
    have hv : hfRawDb 4 (8 / 3) (16 / 3) 1 = 8 / 3 * (1 - Real.log 1 / Real.log 4) := by
      unfold hfRawDb
      norm_num
    rw [hv]
    simp only [Real.log_one, zero_div, sub_zero, mul_one]
    have := roundTenth_eq_int (8 / 3) 27 (by norm_num) (by norm_num)
    simpa using this
  have e2 : hfPositionDb 8 8 2 = 13 / 10 := by
    rw [hfPositionDb_eight]
    have hv : hfRawDb 4 (8 / 3) (16 / 3) 2 = 8 / 3 * (1 - Real.log 2 / Real.log 4) := by
      unfold hfRawDb
      norm_num
    rw [hv, log2_div_log4]
    have := roundTenth_eq_int (8 / 3 * (1 - 1 / 2)) 13 (by norm_num) (by norm_num)
    simpa using this
  have e3 : hfPositionDb 8 8 3 = 6 / 10 := by
    rw [hfPositionDb_eight]
    have hv : hfRawDb 4 (8 / 3) (16 / 3) 3 = 8 / 3 * (1 - Real.log 3 / Real.log 4) := by
      unfold hfRawDb
      norm_num
    rw [hv]
    have := roundTenth_eq_int (8 / 3 * (1 - Real.log 3 / Real.log 4)) 6
      (by push_cast; nlinarith) (by push_cast; nlinarith)
    simpa using this
  have e4 : hfPositionDb 8 8 4 = 0 := by
    rw [hfPositionDb_eight]
    have hv : hfRawDb 4 (8 / 3) (16 / 3) 4 = 8 / 3 * (1 - Real.log 4 / Real.log 4) := by
      unfold hfRawDb
      norm_num
    rw [hv, div_self (ne_of_gt log4_pos)]
    have := roundTenth_eq_int (8 / 3 * (1 - 1)) 0 (by norm_num) (by norm_num)
    simpa using this
  have e5 : hfPositionDb 8 8 5 = 0 := by
    rw [hfPositionDb_eight]
    have hv : hfRawDb 4 (8 / 3) (16 / 3) 5
        = -(16 / 3) * ((Real.log 4 - Real.log 4) / Real.log 4) := by
      unfold hfRawDb
      norm_num
    rw [hv]
    have := roundTenth_eq_int (-(16 / 3) * ((Real.log 4 - Real.log 4) / Real.log 4)) 0
      (by norm_num) (by norm_num)
    simpa using this
  have e6 : hfPositionDb 8 8 6 = -(11 / 10) := by
    rw [hfPositionDb_eight]
    have hv : hfRawDb 4 (8 / 3) (16 / 3) 6
        = -(16 / 3) * ((Real.log 4 - Real.log 3) / Real.log 4) := by
      unfold hfRawDb
      norm_num
    have hsplit : (Real.log 4 - Real.log 3) / Real.log 4 = 1 - Real.log 3 / Real.log 4 := by
      field_simp
    rw [hv, hsplit]
    have := roundTenth_eq_int (-(16 / 3) * (1 - Real.log 3 / Real.log 4)) (-11)
      (by push_cast; nlinarith) (by push_cast; nlinarith)
    rw [this]
    push_cast
    ring
  have e7 : hfPositionDb 8 8 7 = -(27 / 10) := by
    rw [hfPositionDb_eight]
    have hv : hfRawDb 4 (8 / 3) (16 / 3) 7
        = -(16 / 3) * ((Real.log 4 - Real.log 2) / Real.log 4) := by
      unfold hfRawDb
      norm_num
    have hsplit : (Real.log 4 - Real.log 2) / Real.log 4 = 1 - Real.log 2 / Real.log 4 := by
      field_simp
    rw [hv, hsplit, log2_div_log4]
    have := roundTenth_eq_int (-(16 / 3) * (1 - 1 / 2)) (-27) (by norm_num) (by norm_num)
    rw [this]
    push_cast
    ring
  have e8 : hfPositionDb 8 8 8 = -(53 / 10) := by
    rw [hfPositionDb_eight]
    have hv : hfRawDb 4 (8 / 3) (16 / 3) 8
        = -(16 / 3) * ((Real.log 4 - Real.log 1) / Real.log 4) := by
      unfold hfRawDb
      norm_num
    rw [hv]
    simp only [Real.log_one, sub_zero]
    rw [div_self (ne_of_gt log4_pos)]
    have := roundTenth_eq_int (-(16 / 3) * 1) (-53) (by norm_num) (by norm_num)
    rw [this]
    push_cast
    ring
  refine ⟨⟨e1, e2, e3, e4, e5, e6, e7, e8⟩, ?_⟩
  rw [e1, e2, e3, e4, e5, e6, e7, e8]
  norm_num

end Galaxy
